import Mathlib

/-!
Verification of the analytics computation layer of the Superstore BI API
(src/backend/main.py) against its natural-language specification.

Numeric columns (Sales, Profit, Quantity, Discount) are modelled as
rationals; dates and months as integers (day / month numbers); pandas
groupby results as lists of records.  The pandas idiom
(x / y).replace([np.inf, -np.inf], 0).fillna(0) is modelled by a zero
test on the denominator: over the rationals the quotient is non-finite
exactly when the denominator is zero (float overflow is outside the
model).  round(x, 2) is modelled by half-to-even decimal rounding where
the source applies it before further computation, and omitted where the
source applies it only when serialising the response.
-/

namespace Superstore

/-! ## Ratio and threshold calculator (main.py lines 60, 170-174, 355-356, 598-599, 676) -/

/-- Margin percent, main.py line 60 and 355:
(Profit / Sales * 100).replace([np.inf, -np.inf], 0).fillna(0). -/
def marge_pct (profit sales : ℚ) : ℚ :=
  if sales = 0 then 0 else profit / sales * 100

/-- Stock rotation proxy, main.py line 356:
(Quantity / Sales * 1000).replace([np.inf, -np.inf], 0).fillna(0). -/
def rotation (quantity sales : ℚ) : ℚ :=
  if sales = 0 then 0 else quantity / sales * 1000

/-- Sales per distinct customer, main.py line 676:
(Sales / Customer ID count).replace([np.inf, -np.inf], 0).fillna(0). -/
def ca_par_client (sales clients : ℚ) : ℚ :=
  if clients = 0 then 0 else sales / clients

/-- Profit per order, main.py line 174:
profit_total / nb_commandes if nb_commandes > 0 else 0. -/
def marge_brute_par_commande (profit : ℚ) (nb_commandes : ℕ) : ℚ :=
  if 0 < nb_commandes then profit / nb_commandes else 0

/-- Month-over-month growth, main.py lines 598-599: ca_prev is the
previous bucket's sales via shift(1) (none for the first bucket, whose
NaN growth is filled with 0); the quotient is
((Sales - ca_prev) / ca_prev * 100).replace([np.inf, -np.inf], 0).fillna(0). -/
def croissance_pct (sales : ℚ) (ca_prev : Option ℚ) : ℚ :=
  match ca_prev with
  | none => 0
  | some p => if p = 0 then 0 else (sales - p) / p * 100

/-! ## Half-to-even decimal rounding, modelling pandas Series.round / round(x, n) -/

/-- Round a rational to the nearest integer, ties to even. -/
def roundHalfEven (x : ℚ) : ℤ :=
  let f := ⌊x⌋
  let r := x - (f : ℚ)
  if r < 1/2 then f
  else if 1/2 < r then f + 1
  else if f % 2 = 0 then f else f + 1

/-- Round a rational to two decimal places, ties to even. -/
def round2 (x : ℚ) : ℚ := (roundHalfEven (x * 100) : ℚ) / 100

/-! ## BCG matrix (main.py lines 222-334, get_bcg_matrix) -/

/-- Year-over-year growth of a product, main.py lines 270-276:
if ca_prev > 0 the relative growth, elif ca_last > 0 the synthetic 100
for a new product, else 0. -/
def bcg_croissance (ca_prev ca_last : ℚ) : ℚ :=
  if 0 < ca_prev then (ca_last - ca_prev) / ca_prev * 100
  else if 0 < ca_last then 100
  else 0

/-- BCG quadrant labels, main.py lines 290-297 (the source stores the
French emoji strings Etoile / Vache a lait / Dilemme / Poids mort). -/
inductive Quadrant where
  | etoile
  | vache
  | dilemme
  | poidsMort
  deriving DecidableEq, Repr

/-- Quadrant assignment, main.py lines 290-297. -/
def bcg_quadrant (part_marche croissance : ℚ) : Quadrant :=
  if 0.5 ≤ part_marche ∧ 10 ≤ croissance then .etoile
  else if 0.5 ≤ part_marche ∧ croissance < 10 then .vache
  else if part_marche < 0.5 ∧ 10 ≤ croissance then .dilemme
  else .poidsMort

/-- One transaction row as seen by get_bcg_matrix: the groupby key
columns (Product Name, Category, Sub-Category), the derived Year column
and the summed measures. -/
structure Row where
  produit : String
  categorie : String
  sousCat : String
  year : ℤ
  sales : ℚ
  profit : ℚ
  quantity : ℚ
  deriving DecidableEq, Repr

/-- Distinct years present, ascending: sorted(df[Year].unique()),
main.py line 233. -/
def yearsOf (txs : List Row) : List ℤ :=
  ((txs.map (·.year)).dedup).insertionSort (fun a b => a ≤ b)

/-- Sum of a measure over the rows of one (product, category,
sub-category) key in one year; the pivot with fill_value=0 of main.py
lines 250-255 yields 0 for a missing (key, year) combination. -/
def sumSales (txs : List Row) (k : String × String × String) (y : ℤ) : ℚ :=
  ((txs.filter (fun t => decide ((t.produit, t.categorie, t.sousCat) = k ∧ t.year = y))).map
    (·.sales)).sum

def sumProfit (txs : List Row) (k : String × String × String) (y : ℤ) : ℚ :=
  ((txs.filter (fun t => decide ((t.produit, t.categorie, t.sousCat) = k ∧ t.year = y))).map
    (·.profit)).sum

def sumQuantity (txs : List Row) (k : String × String × String) (y : ℤ) : ℚ :=
  ((txs.filter (fun t => decide ((t.produit, t.categorie, t.sousCat) = k ∧ t.year = y))).map
    (·.quantity)).sum

/-- Last (most recent) year, main.py line 239. -/
def lastYearOf (txs : List Row) : ℤ :=
  (yearsOf txs).getD ((yearsOf txs).length - 1) 0

/-- Second most recent year, main.py line 240. -/
def prevYearOf (txs : List Row) : ℤ :=
  (yearsOf txs).getD ((yearsOf txs).length - 2) 0

/-- Total sales of the last year, main.py line 261. -/
def caTotalLastYear (txs : List Row) : ℚ :=
  ((txs.filter (fun t => decide (t.year = lastYearOf txs))).map (·.sales)).sum

/-- One record of the BCG result (main.py lines 299-311); numeric fields
hold the computed values, the serialisation rounding of lines 303-309 is
omitted (the quadrant at line 290 is computed from the unrounded
values). -/
structure BCGRec where
  produit : String
  categorie : String
  sousCat : String
  ca_actuel : ℚ
  ca_precedent : ℚ
  part_marche : ℚ
  croissance : ℚ
  profit : ℚ
  marge_pct : ℚ
  rotation : ℚ
  quadrant : Quadrant
  deriving DecidableEq, Repr

/-- Build the record of one product key, main.py lines 264-311. -/
def mkBCGRec (txs : List Row) (k : String × String × String) : BCGRec :=
  let ca_last := sumSales txs k (lastYearOf txs)
  let ca_prev := sumSales txs k (prevYearOf txs)
  let profit_last := sumProfit txs k (lastYearOf txs)
  let qty_last := sumQuantity txs k (lastYearOf txs)
  let total := caTotalLastYear txs
  let part_marche := if 0 < total then ca_last / total * 100 else 0
  let croissance := bcg_croissance ca_prev ca_last
  { produit := k.1
    categorie := k.2.1
    sousCat := k.2.2
    ca_actuel := ca_last
    ca_precedent := ca_prev
    part_marche := part_marche
    croissance := croissance
    profit := profit_last
    marge_pct := if 0 < ca_last then profit_last / ca_last * 100 else 0
    rotation := if 0 < ca_last then qty_last / ca_last * 1000 else 0
    quadrant := bcg_quadrant part_marche croissance }

/-- Result of get_bcg_matrix: the error marker of the insufficient-data
branch (main.py lines 235-237) and the data list (the summary seuils and
repartition blocks of lines 320-334 are not claim-relevant and are
omitted). -/
structure BCGOutput where
  error : Option String
  data : List BCGRec
  deriving DecidableEq, Repr

/-- get_bcg_matrix, main.py lines 222-334: fewer than two distinct years
returns the explicit error marker with an empty data list; otherwise one
record per distinct key, sorted by current sales descending and cut to
limite. -/
def get_bcg_matrix (txs : List Row) (limite : ℕ) : BCGOutput :=
  if (yearsOf txs).length < 2 then
    { error := some "Pas assez de donnees pour calculer la croissance", data := [] }
  else
    let keys := (txs.map (fun t => (t.produit, t.categorie, t.sousCat))).dedup
    let recs := keys.map (mkBCGRec txs)
    { error := none
      data := (recs.insertionSort (fun a b => b.ca_actuel ≤ a.ca_actuel)).take limite }

/-- Monthly year-over-year variation, main.py lines 608-614: ca_n1 is
the sales of the same calendar month one year earlier when that monthly
bucket exists; the variation is computed (rounded to 2 decimals) only
when ca_n1 exists and is positive, and stays None otherwise. -/
def variation_yoy (sales : ℚ) (ca_n1 : Option ℚ) : Option ℚ :=
  match ca_n1 with
  | none => none
  | some p => if 0 < p then some (round2 ((sales - p) / p * 100)) else none

/-! ## Delivery lateness (main.py lines 1472-1537, get_taux_retards) -/

/-- Per-mode lateness threshold, main.py lines 1485-1490 and the
dict.get default of line 1493: unknown modes fall back to 7. -/
def seuil_retard (mode : String) : ℤ :=
  if mode = "Standard Class" then 7
  else if mode = "Second Class" then 5
  else if mode = "First Class" then 3
  else if mode = "Same Day" then 1
  else 7

/-- est_en_retard, main.py lines 1492-1494: the delivery delay in days
strictly exceeds the per-mode threshold. -/
def est_en_retard (mode : String) (delai_livraison : ℤ) : Bool :=
  decide (seuil_retard mode < delai_livraison)

/-- A transaction row as seen by the lateness analysis: dates are day
numbers, delai_livraison = (Ship Date - Order Date).dt.days
(main.py line 1482). -/
structure Livraison where
  orderDate : ℤ
  shipDate : ℤ
  shipMode : String
  deriving DecidableEq, Repr

/-- Lateness of one row, main.py line 1496. -/
def est_en_retard_row (l : Livraison) : Bool :=
  est_en_retard l.shipMode (l.shipDate - l.orderDate)

/-! ## ABC / Pareto analysis (main.py lines 1126-1255, get_analyse_abc) -/

/-- ABC class labels, main.py lines 1157-1163 (the source stores the
strings A / B / C with emoji suffixes). -/
inductive ABCClasse where
  | A
  | B
  | C
  deriving DecidableEq, Repr

/-- classify_abc, main.py lines 1157-1163, applied to the rounded
cumulative percentage. -/
def classify_abc (pct : ℚ) : ABCClasse :=
  if pct ≤ 80 then .A
  else if pct ≤ 95 then .B
  else .C

/-- One aggregated record entering the ABC analysis (after the groupby
of lines 1141-1147: one row per product with summed measures). -/
structure ABCInput where
  nom : String
  ca : ℚ
  profit : ℚ
  deriving DecidableEq, Repr

/-- One record of the ABC result, main.py lines 1236-1245. -/
structure ABCRec where
  nom : String
  ca : ℚ
  pct_cumul : ℚ
  classe : ABCClasse
  deriving DecidableEq, Repr

/-- Cumulative-sum pass, main.py lines 1151-1165: running cumulative
sales, percentage of the grand total rounded to 2 decimals (line 1153
rounds before the classification of line 1165), then the ABC class. -/
def abcCumul (total : ℚ) : ℚ → List ABCInput → List ABCRec
  | _, [] => []
  | acc, x :: rest =>
    let cum := acc + x.ca
    let pct := round2 (cum / total * 100)
    { nom := x.nom, ca := x.ca, pct_cumul := pct, classe := classify_abc pct }
      :: abcCumul total cum rest

/-- get_analyse_abc (niveau = produit branch, main.py lines 1139-1165):
sort descending by sales, cumulate, classify. -/
def get_analyse_abc (produits : List ABCInput) : List ABCRec :=
  abcCumul ((produits.map (·.ca)).sum) 0
    (produits.insertionSort (fun a b => b.ca ≤ a.ca))

/-! ## RFM segmentation (main.py lines 763-854, get_segmentation_rfm) -/

/-- Ascending sort of a numeric column. -/
def sortRat (xs : List ℚ) : List ℚ := xs.insertionSort (fun a b => a ≤ b)

/-- Linear-interpolation quantile of a list at probability p, as used by
pandas qcut: with ys the sorted values and h = (n-1)p, the value is
ys[floor h] + (h - floor h) * (ys[floor h + 1] - ys[floor h]). -/
def quantile (xs : List ℚ) (p : ℚ) : ℚ :=
  let ys := sortRat xs
  if ys.length = 0 then 0
  else
    let h : ℚ := ((ys.length - 1 : ℕ) : ℚ) * p
    let i : ℕ := (⌊h⌋).toNat
    let g : ℚ := h - ((⌊h⌋ : ℤ) : ℚ)
    (1 - g) * ys.getD i 0 + g * ys.getD (i + 1) 0

/-- The six bin edges of qcut(xs, q=5): quantiles at 0, 1/5, ..., 1. -/
def qcutEdges (xs : List ℚ) : List ℚ :=
  (List.range 6).map (fun i => quantile xs ((i : ℚ) / 5))

/-- Strict monotonicity check on the edge list; pandas qcut with
duplicates=drop removes duplicate edges and then raises ValueError
because the 5 supplied labels no longer match the bin count, so a
non-strict edge list makes the whole computation fail. -/
def edgesStrict : List ℚ → Bool
  | [] => true
  | [_] => true
  | a :: b :: rest => decide (a < b) && edgesStrict (b :: rest)

/-- Bin index of a value given the edge list e0 < e1 < ... < e5: qcut
assigns v to the right-closed interval (e_i, e_i+1] (the lowest bin also
contains e0), i.e. the bin index is the number of interior edges
e1..e4 strictly below v. -/
def assignBin (edges : List ℚ) (v : ℚ) : ℕ :=
  ((edges.drop 1).take 4).countP (fun e => decide (e < v))

/-- qcut(xs, q=5, labels, duplicates=drop) with a 5-element label list:
none models the ValueError raised when edges collapse, otherwise each
value is mapped to the label of its bin. -/
def qcutScores (xs : List ℚ) (labels : List ℤ) : Option (List ℤ) :=
  let e := qcutEdges xs
  if edgesStrict e then some (xs.map (fun v => labels.getD (assignBin e v) 0))
  else none

/-- rank(method=first), main.py lines 792-793: the rank of entry j is
one plus the number of entries that are strictly smaller or equal with
an earlier position, so equal values receive distinct consecutive
ranks in order of appearance. -/
def rankFirst (xs : List ℚ) : List ℚ :=
  (List.range xs.length).map (fun j =>
    1 + (((List.range xs.length).filter (fun i =>
      decide (xs.getD i 0 < xs.getD j 0 ∨ (xs.getD i 0 = xs.getD j 0 ∧ i < j)))).length : ℚ))

/-- One customer of the RFM table (main.py lines 777-783): recency in
days since the last order, frequency as distinct order count, monetary
as total sales. -/
structure Client where
  recency : ℚ
  frequency : ℚ
  monetary : ℚ
  deriving DecidableEq, Repr

/-- The three per-customer score columns, aligned with the input list. -/
structure RFMScores where
  r : List ℤ
  f : List ℤ
  m : List ℤ
  deriving DecidableEq, Repr

/-- RFM scoring, main.py lines 791-793: r_score from the raw recency
with reversed labels [5,4,3,2,1], f_score and m_score from the
rank(method=first) transform with labels [1,2,3,4,5]; none models the
ValueError pandas raises when any of the three qcut calls collapses. -/
def get_segmentation_rfm (clients : List Client) : Option RFMScores :=
  (qcutScores (clients.map (·.recency)) [5, 4, 3, 2, 1]).bind fun r =>
    (qcutScores (rankFirst (clients.map (·.frequency))) [1, 2, 3, 4, 5]).bind fun f =>
      (qcutScores (rankFirst (clients.map (·.monetary))) [1, 2, 3, 4, 5]).map fun m =>
        { r := r, f := f, m := m }

/-! ## Cohort retention (main.py lines 1017-1083, get_taux_retention) -/

/-- One purchase event: customer identifier and the month number of the
order date (a Period M value as an absolute month count). -/
structure Achat where
  customer : ℕ
  month : ℤ
  deriving DecidableEq, Repr

/-- All order months of one customer. -/
def monthsOfClient (txs : List Achat) (c : ℕ) : List ℤ :=
  (txs.filter (fun t => decide (t.customer = c))).map (·.month)

/-- Cohort month of a customer: the month of the first purchase,
main.py lines 1029-1030. -/
def cohortMonth (txs : List Achat) (c : ℕ) : Option ℤ :=
  (monthsOfClient txs c).min?

/-- months_since_first of one row, main.py line 1036. -/
def periodOf (txs : List Achat) (t : Achat) : ℤ :=
  t.month - (cohortMonth txs t.customer).getD t.month

/-- Smallest months_since_first over the whole table: the first column
selected by iloc[:, 0] at main.py line 1054 is the column of this
period. -/
def minPeriod (txs : List Achat) : ℤ :=
  ((txs.map (periodOf txs)).min?).getD 0

/-- Distinct customers of a cohort active at a given period, main.py
lines 1039-1051 (the pivot fill_value=0 yields 0 for an absent cell). -/
def nbClients (txs : List Achat) (cohort period : ℤ) : ℕ :=
  (((txs.filter (fun t =>
      decide (cohortMonth txs t.customer = some cohort ∧ t.month - cohort = period))).map
    (·.customer)).dedup).length

/-- Retention cell, main.py lines 1054-1055: each cohort row divided by
its entry in the first period column, times 100. -/
def retention (txs : List Achat) (cohort period : ℤ) : ℚ :=
  (nbClients txs cohort period : ℚ) / (nbClients txs cohort (minPeriod txs) : ℚ) * 100

/-- The cohorts present in the table. -/
def cohorts (txs : List Achat) : List ℤ :=
  (txs.filterMap (fun t => cohortMonth txs t.customer)).dedup

/-! ## Top products (main.py lines 187-218, get_top_produits) -/

/-- Sort criterion, main.py line 190. -/
inductive TriPar where
  | ca
  | profit
  | quantite
  deriving DecidableEq, Repr

/-- One aggregated product record (groupby of lines 193-197). -/
structure ProduitAgg where
  produit : String
  categorie : String
  sales : ℚ
  quantity : ℚ
  profit : ℚ
  deriving DecidableEq, Repr

/-- get_top_produits, main.py lines 199-206: sort descending by the
selected measure, then head(limite). -/
def get_top_produits (produits : List ProduitAgg) (limite : ℕ) (tri_par : TriPar) :
    List ProduitAgg :=
  let tri :=
    match tri_par with
    | .ca => produits.insertionSort (fun a b : ProduitAgg => b.sales ≤ a.sales)
    | .profit => produits.insertionSort (fun a b : ProduitAgg => b.profit ≤ a.profit)
    | .quantite => produits.insertionSort (fun a b : ProduitAgg => b.quantity ≤ a.quantity)
  tri.take limite

/-! ## Deficit orders (main.py lines 1259-1310, get_commandes_deficitaires) -/

/-- One aggregated order (groupby Order ID of lines 1267-1275). -/
structure Commande where
  orderId : String
  sales : ℚ
  profit : ℚ
  deriving DecidableEq, Repr

/-- Result of get_commandes_deficitaires: the returned orders and the
summary statistics of lines 1298-1309 (the serialisation rounding of
round(x, 2) is omitted). -/
structure DeficitOutput where
  data : List Commande
  nb_commandes_deficitaires : ℕ
  perte_totale : ℚ
  perte_moyenne : ℚ
  deriving DecidableEq, Repr

/-- get_commandes_deficitaires, main.py lines 1259-1310: filter orders
with negative profit, sort ascending by profit, keep the first limite;
total_perte sums only those kept rows (line 1299), while
nb_total_deficitaires counts every deficit order (line 1300), and
perte_moyenne divides the former by the latter (line 1307). -/
def get_commandes_deficitaires (commandes : List Commande) (limite : ℕ) : DeficitOutput :=
  let deficitaires :=
    ((commandes.filter (fun c => decide (c.profit < 0))).insertionSort
      (fun a b : Commande => a.profit ≤ b.profit)).take limite
  let total_perte := |((deficitaires.map (·.profit)).sum)|
  let nb_total := (commandes.filter (fun c => decide (c.profit < 0))).length
  { data := deficitaires
    nb_commandes_deficitaires := nb_total
    perte_totale := total_perte
    perte_moyenne := if 0 < nb_total then total_perte / nb_total else 0 }

/-- Modelled from the claim wording, for comparison with the source: the
mean loss over ALL deficit orders. -/
def perte_moyenne_globale (commandes : List Commande) : ℚ :=
  let deficit := commandes.filter (fun c => decide (c.profit < 0))
  if 0 < deficit.length then |((deficit.map (·.profit)).sum)| / deficit.length else 0

/-! ## Concrete example data used by witnesses and counterexamples -/

/-- A dataset with a single year of transactions. -/
def exRowsOneYear : List Row := [⟨"p", "c", "s", 2017, 100, 10, 1⟩]

/-- A dataset with two years of transactions. -/
def exRowsTwoYears : List Row :=
  [⟨"p", "c", "s", 2016, 100, 10, 1⟩, ⟨"p", "c", "s", 2017, 150, 20, 2⟩,
   ⟨"q", "c", "s", 2017, 80, 5, 1⟩]

/-- A second two-year dataset, used by the BCG quadrant witness. -/
def exRowsBCG : List Row :=
  [⟨"p", "c", "s", 2016, 100, 10, 1⟩, ⟨"p", "c", "s", 2017, 150, 20, 2⟩,
   ⟨"q", "c", "s", 2017, 80, 5, 1⟩]

/-- Three aggregated product records, for the top-N witness. -/
def exProduitsTop : List ProduitAgg :=
  [⟨"a", "c", 100, 1, 10⟩, ⟨"b", "c", 200, 2, 20⟩, ⟨"d", "c", 50, 3, 5⟩]

/-- Three aggregated records entering the ABC analysis. -/
def exProduitsABC : List ABCInput := [⟨"a", 50, 0⟩, ⟨"b", 30, 0⟩, ⟨"d", 20, 0⟩]

/-- A single customer: the recency quantile edges collapse, so the
qcut call of main.py line 791 raises. -/
def exClientSeul : Client := ⟨0, 1, 100⟩

/-- Five customers with a tie in frequency and in monetary. -/
def exClientsRFM : List Client :=
  [⟨0, 10, 100⟩, ⟨10, 8, 200⟩, ⟨20, 8, 200⟩, ⟨30, 4, 400⟩, ⟨40, 2, 500⟩]

/-- The scores computed for exClientsRFM. -/
def exScoresRFM : RFMScores := ⟨[5, 4, 3, 2, 1], [5, 3, 4, 2, 1], [1, 2, 3, 4, 5]⟩

/-- Purchase events: customer 1 buys in months 0 and 1, customer 2 in
month 1, giving two cohorts. -/
def exAchats : List Achat := [⟨1, 0⟩, ⟨1, 1⟩, ⟨2, 1⟩]

/-- Eleven orders, all with negative profit. -/
def exCommandesDef : List Commande :=
  [⟨"o1", 10, -1⟩, ⟨"o2", 10, -2⟩, ⟨"o3", 10, -3⟩, ⟨"o4", 10, -4⟩, ⟨"o5", 10, -5⟩,
   ⟨"o6", 10, -6⟩, ⟨"o7", 10, -7⟩, ⟨"o8", 10, -8⟩, ⟨"o9", 10, -9⟩, ⟨"o10", 10, -10⟩,
   ⟨"o11", 10, -11⟩]

/-! ## Claim theorems -/

attribute [local semireducible] Rat.mul Rat.inv Rat.add Rat.sub Rat.ofScientific

/-! ## Claim C1: safe division -/

/-- Claim C1 (confirmed).  Safe division: for every ratio the core
computes (margin percent, rotation, sales per client, profit per order,
period growth), a zero denominator (the only source of a non-finite
quotient over the rationals) resolves the ratio to 0 without an error,
and a non-zero denominator yields the exact quotient. -/
theorem safe_division_policy (profit sales quantity clients : ℚ) (nb : ℕ) (prev : ℚ) :
    (sales = 0 → marge_pct profit sales = 0) ∧
    (sales ≠ 0 → marge_pct profit sales = profit / sales * 100) ∧
    (sales = 0 → rotation quantity sales = 0) ∧
    (sales ≠ 0 → rotation quantity sales = quantity / sales * 1000) ∧
    (clients = 0 → ca_par_client sales clients = 0) ∧
    (clients ≠ 0 → ca_par_client sales clients = sales / clients) ∧
    (nb = 0 → marge_brute_par_commande profit nb = 0) ∧
    (nb ≠ 0 → marge_brute_par_commande profit nb = profit / nb) ∧
    croissance_pct sales none = 0 ∧
    (prev = 0 → croissance_pct sales (some prev) = 0) ∧
    (prev ≠ 0 → croissance_pct sales (some prev) = (sales - prev) / prev * 100) := by
  refine ⟨fun h => ?_, fun h => ?_, fun h => ?_, fun h => ?_, fun h => ?_, fun h => ?_,
    fun h => ?_, fun h => ?_, rfl, fun h => ?_, fun h => ?_⟩ <;>
    simp [marge_pct, rotation, ca_par_client, marge_brute_par_commande, croissance_pct, h]

/-- Witness for C1: the policy evaluated at concrete inputs. -/
theorem safe_division_policy_witness :
    marge_pct 5 0 = 0 ∧ marge_pct 5 2 = 250 ∧ ca_par_client 7 0 = 0 ∧
    croissance_pct 3 (some 0) = 0 :=
  ⟨(safe_division_policy 5 0 0 0 0 0).1 rfl,
   by
    have h := (safe_division_policy 5 2 0 0 0 0).2.1 (by norm_num)
    rw [h]; norm_num,
   (safe_division_policy 0 7 0 0 0 0).2.2.2.2.1 rfl,
   (safe_division_policy 0 3 0 0 0 0).2.2.2.2.2.2.2.2.2.1 rfl⟩

/-! ## Claim C2: year-over-year growth and the new-product exception -/

/-- Claim C2 counterexample.  The claim states that the new-product
exception applies uniformly in the monthly year-over-year comparison as
well: a prior-period value of zero with a positive current value should
resolve to a synthetic 100.  In the source (main.py lines 611-614) the
monthly variation stays None unless the prior value exists and is
strictly positive, so at sales 80 against a prior value of 0 the code
yields None, not 100. -/
theorem yoy_new_product_counterexample :
    variation_yoy 80 (some 0) = none ∧ variation_yoy 80 (some 0) ≠ some 100 := by
  constructor <;> decide

/-- Claim C2 (corrected).  The BCG growth (main.py lines 270-276)
follows the stated rule: positive prior gives the relative growth, zero
prior with positive current gives the synthetic 100, both zero gives 0.
The monthly year-over-year comparison (main.py lines 611-614) does not
share the exception: it computes the rounded relative growth only when
the prior-period value exists and is positive, and yields null
otherwise. -/
theorem yoy_new_product_amended (prev last ca p : ℚ) (n1 : Option ℚ) :
    (0 < prev → bcg_croissance prev last = (last - prev) / prev * 100) ∧
    (prev = 0 → 0 < last → bcg_croissance prev last = 100) ∧
    (prev = 0 → last = 0 → bcg_croissance prev last = 0) ∧
    (n1 = some p → 0 < p → variation_yoy ca n1 = some (round2 ((ca - p) / p * 100))) ∧
    (n1 = some p → ¬0 < p → variation_yoy ca n1 = none) ∧
    (n1 = none → variation_yoy ca n1 = none) := by
  refine ⟨fun h => ?_, fun h h2 => ?_, fun h h2 => ?_, fun h h2 => ?_, fun h h2 => ?_,
    fun h => ?_⟩
  · rw [bcg_croissance, if_pos h]
  · subst h
    rw [bcg_croissance, if_neg (lt_irrefl 0), if_pos h2]
  · subst h h2
    simp [bcg_croissance]
  · subst h
    simp only [variation_yoy]
    rw [if_pos h2]
  · subst h
    simp only [variation_yoy]
    rw [if_neg h2]
  · subst h
    rfl

/-- Witness for C2: the amended rule evaluated at concrete inputs. -/
theorem yoy_new_product_amended_witness :
    bcg_croissance 100 150 = 50 ∧ bcg_croissance 0 80 = 100 ∧ bcg_croissance 0 0 = 0 ∧
    variation_yoy 200 (some 100) = some 100 ∧ variation_yoy 80 (some 0) = none :=
  ⟨by
    have h := (yoy_new_product_amended 100 150 0 0 none).1 (by norm_num)
    rw [h]; norm_num,
   (yoy_new_product_amended 0 80 0 0 none).2.1 rfl (by norm_num),
   (yoy_new_product_amended 0 0 0 0 none).2.2.1 rfl rfl,
   by
    have h := (yoy_new_product_amended 0 0 200 100 (some 100)).2.2.2.1 rfl (by norm_num)
    rw [h]; decide,
   (yoy_new_product_amended 0 0 80 0 (some 0)).2.2.2.2.1 rfl (by norm_num)⟩

/-! ## Claim C5: delivery lateness -/

/-- Claim C5 (confirmed).  A shipment is late exactly when its delay in
days strictly exceeds the per-mode threshold (Standard Class 7, Second
Class 5, First Class 3, Same Day 1, unknown modes 7); equality with the
threshold is not late. -/
theorem delivery_lateness_rule (l : Livraison) (mode : String) (delai : ℤ) :
    (est_en_retard_row l = true ↔ seuil_retard l.shipMode < l.shipDate - l.orderDate) ∧
    seuil_retard "Standard Class" = 7 ∧ seuil_retard "Second Class" = 5 ∧
    seuil_retard "First Class" = 3 ∧ seuil_retard "Same Day" = 1 ∧
    (mode ∉ ["Standard Class", "Second Class", "First Class", "Same Day"] →
      seuil_retard mode = 7) ∧
    (delai = seuil_retard mode → est_en_retard mode delai = false) := by
  refine ⟨by simp [est_en_retard_row, est_en_retard], rfl, rfl, rfl, rfl, fun h => ?_,
    fun h => ?_⟩
  · simp only [List.mem_cons, List.not_mem_nil, or_false, not_or] at h
    obtain ⟨h1, h2, h3, h4⟩ := h
    simp [seuil_retard, h1, h2, h3, h4]
  · subst h
    simp [est_en_retard]

/-- Witness for C5: an unknown mode gets the default threshold 7, and a
delay equal to its threshold is not late. -/
theorem delivery_lateness_rule_witness :
    seuil_retard "Overnight" = 7 ∧ est_en_retard "Overnight" 7 = false := by
  refine ⟨(delivery_lateness_rule ⟨0, 3, "Standard Class"⟩ "Overnight" 7).2.2.2.2.2.1
    (by decide), ?_⟩
  have h := (delivery_lateness_rule ⟨0, 3, "Standard Class"⟩ "Overnight" 7).2.2.2.2.2.2
  exact h (by decide)

/-! ## Claim C8: BCG with fewer than two years -/

/-- Claim C8 (confirmed).  With fewer than two distinct years the BCG
analysis returns a well-formed result carrying an explicit error marker
and an empty data list; with at least two years the marker is absent,
so the marker distinguishes the no-data case from a zero value. -/
theorem bcg_insufficient_years (txs : List Row) (limite : ℕ) :
    ((yearsOf txs).length < 2 →
      (get_bcg_matrix txs limite).error.isSome = true ∧
      (get_bcg_matrix txs limite).data = []) ∧
    (2 ≤ (yearsOf txs).length → (get_bcg_matrix txs limite).error = none) := by
  unfold get_bcg_matrix
  split_ifs with h
  · exact ⟨fun _ => ⟨rfl, rfl⟩, fun h2 => absurd h2 (by omega)⟩
  · exact ⟨fun h2 => absurd h2 h, fun _ => rfl⟩

/-- Witness for C8: a one-year dataset returns the marker and no data, a
two-year dataset returns no marker. -/
theorem bcg_insufficient_years_witness :
    ((get_bcg_matrix exRowsOneYear 50).error.isSome = true ∧
      (get_bcg_matrix exRowsOneYear 50).data = []) ∧
    (get_bcg_matrix exRowsTwoYears 50).error = none :=
  ⟨(bcg_insufficient_years exRowsOneYear 50).1 (by decide),
   (bcg_insufficient_years exRowsTwoYears 50).2 (by decide)⟩

/-! ## Claim C9: top-N with fewer records than requested -/

/-- Claim C9 (confirmed).  For every aggregate set, in-range limit and
sort criterion, when the limit is at least the number of available
records the selection returns all records (a permutation of the input,
of the same length) without error. -/
theorem top_n_all_records (produits : List ProduitAgg) (limite : ℕ) (tri : TriPar)
    (h1 : 1 ≤ limite) (h50 : limite ≤ 50) (h : produits.length ≤ limite) :
    (get_top_produits produits limite tri).length = produits.length ∧
    (get_top_produits produits limite tri).Perm produits := by
  have key : ∀ (le : ProduitAgg → ProduitAgg → Prop) (_ : DecidableRel le),
      ((produits.insertionSort le).take limite).Perm produits := by
    intro le inst
    rw [List.take_of_length_le (by rw [List.length_insertionSort]; exact h)]
    exact List.perm_insertionSort le produits
  unfold get_top_produits
  cases tri <;> exact ⟨((key _ _).length_eq), key _ _⟩

/-- Witness for C9: requesting the top 5 of a 3-record set returns all 3
records. -/
theorem top_n_all_records_witness :
    (get_top_produits exProduitsTop 5 .ca).length = exProduitsTop.length ∧
    (get_top_produits exProduitsTop 5 .ca).Perm exProduitsTop :=
  top_n_all_records exProduitsTop 5 .ca (by decide) (by decide) (by decide)

/-! ## Claim C3: BCG quadrant assignment -/

/-- The quadrant function realises the four mutually exclusive,
exhaustive threshold conditions. -/
lemma bcg_quadrant_iff (pm cr : ℚ) :
    (bcg_quadrant pm cr = .etoile ↔ 0.5 ≤ pm ∧ 10 ≤ cr) ∧
    (bcg_quadrant pm cr = .vache ↔ 0.5 ≤ pm ∧ cr < 10) ∧
    (bcg_quadrant pm cr = .dilemme ↔ pm < 0.5 ∧ 10 ≤ cr) ∧
    (bcg_quadrant pm cr = .poidsMort ↔ pm < 0.5 ∧ cr < 10) := by
  rcases le_or_lt (0.5 : ℚ) pm with hp | hp <;> rcases le_or_lt (10 : ℚ) cr with hc | hc
  · have hq : bcg_quadrant pm cr = .etoile := by simp [bcg_quadrant, hp, hc]
    rw [hq]
    refine ⟨?_, ?_, ?_, ?_⟩ <;> simp [hp, hc, not_lt.2 hc, not_lt.2 hp]
  · have hq : bcg_quadrant pm cr = .vache := by simp [bcg_quadrant, hp, hc, not_le.2 hc]
    rw [hq]
    refine ⟨?_, ?_, ?_, ?_⟩ <;> simp [hp, hc, not_le.2 hc, not_lt.2 hp]
  · have hq : bcg_quadrant pm cr = .dilemme := by simp [bcg_quadrant, hc, not_le.2 hp]
    rw [hq]
    refine ⟨?_, ?_, ?_, ?_⟩ <;> simp [hp, hc, not_lt.2 hc, not_le.2 hp]
  · have hq : bcg_quadrant pm cr = .poidsMort := by
      simp [bcg_quadrant, not_le.2 hp, not_le.2 hc]
    rw [hq]
    refine ⟨?_, ?_, ?_, ?_⟩ <;> simp [hp, hc, not_le.2 hc, not_le.2 hp]

/-- Every record of the BCG data list is the record of some product
key. -/
lemma mem_bcg_data {txs : List Row} {limite : ℕ} {r : BCGRec}
    (hr : r ∈ (get_bcg_matrix txs limite).data) : ∃ k, r = mkBCGRec txs k := by
  unfold get_bcg_matrix at hr
  split_ifs at hr with h
  · simp at hr
  · have h1 := List.mem_of_mem_take hr
    rw [List.mem_insertionSort] at h1
    obtain ⟨k, _, rfl⟩ := List.mem_map.1 h1
    exact ⟨k, rfl⟩

/-- Claim C3 (confirmed).  Every record of the BCG result carries the
market share equal to its last-year sales as a percentage of the total
last-year sales, and its quadrant is Star iff share ≥ 0.5 and growth
≥ 10, CashCow iff share ≥ 0.5 and growth < 10, QuestionMark iff share
< 0.5 and growth ≥ 10, and Dog otherwise; the four conditions are
mutually exclusive and exhaustive, so each record receives exactly one
quadrant. -/
theorem bcg_quadrant_assignment (txs : List Row) (limite : ℕ) (r : BCGRec)
    (hr : r ∈ (get_bcg_matrix txs limite).data) :
    r.part_marche =
      (if 0 < caTotalLastYear txs then r.ca_actuel / caTotalLastYear txs * 100 else 0) ∧
    (r.quadrant = .etoile ↔ 0.5 ≤ r.part_marche ∧ 10 ≤ r.croissance) ∧
    (r.quadrant = .vache ↔ 0.5 ≤ r.part_marche ∧ r.croissance < 10) ∧
    (r.quadrant = .dilemme ↔ r.part_marche < 0.5 ∧ 10 ≤ r.croissance) ∧
    (r.quadrant = .poidsMort ↔ r.part_marche < 0.5 ∧ r.croissance < 10) := by
  obtain ⟨k, rfl⟩ := mem_bcg_data hr
  exact ⟨rfl, bcg_quadrant_iff _ _⟩

/-- Witness for C3: in the two-year example dataset the top record is a
Star and satisfies the threshold description. -/
theorem bcg_quadrant_assignment_witness :
    mkBCGRec exRowsBCG ("p", "c", "s") ∈ (get_bcg_matrix exRowsBCG 50).data ∧
    ((mkBCGRec exRowsBCG ("p", "c", "s")).quadrant = .etoile ↔
      0.5 ≤ (mkBCGRec exRowsBCG ("p", "c", "s")).part_marche ∧
      10 ≤ (mkBCGRec exRowsBCG ("p", "c", "s")).croissance) :=
  ⟨by decide, (bcg_quadrant_assignment exRowsBCG 50 _ (by decide)).2.1⟩

/-! ## Claim C4: ABC / Pareto classification -/

/-- The classifier realises the three mutually exclusive, exhaustive
cumulative-percentage conditions. -/
lemma classify_abc_spec (pct : ℚ) :
    (classify_abc pct = .A ↔ pct ≤ 80) ∧
    (classify_abc pct = .B ↔ 80 < pct ∧ pct ≤ 95) ∧
    (classify_abc pct = .C ↔ 95 < pct) := by
  unfold classify_abc
  split_ifs with h1 h2
  · have h95 : ¬95 < pct := not_lt.2 (le_trans h1 (by norm_num))
    exact ⟨by simp [h1], by simp [not_lt.2 h1], by simp [h95]⟩
  · have h80 : 80 < pct := not_le.1 h1
    exact ⟨by simp [h1], by simp [h80, h2], by simp [not_lt.2 h2]⟩
  · have h95 : 95 < pct := not_le.1 h2
    exact ⟨by simp [h1], by simp [h2], by simp [h95]⟩

/-- Each record produced by the cumulative pass is classified from its
own stored cumulative percentage. -/
lemma abcCumul_classe {total : ℚ} {r : ABCRec} :
    ∀ {acc : ℚ} {l : List ABCInput}, r ∈ abcCumul total acc l →
      r.classe = classify_abc r.pct_cumul := by
  intro acc l
  induction l generalizing acc with
  | nil => intro h; simp [abcCumul] at h
  | cons x rest ih =>
    intro h
    simp only [abcCumul, List.mem_cons] at h
    rcases h with h | h
    · subst h; rfl
    · exact ih h

/-- The cumulative pass keeps one output record per input record. -/
lemma abcCumul_length (total : ℚ) :
    ∀ (acc : ℚ) (l : List ABCInput), (abcCumul total acc l).length = l.length := by
  intro acc l
  induction l generalizing acc with
  | nil => rfl
  | cons x rest ih => simp [abcCumul, ih]

/-- Claim C4 (confirmed).  The ABC analysis yields one record per input
record, and every record is in class A iff its cumulative percentage is
at most 80, in class B iff it lies in (80, 95], and in class C iff it
exceeds 95; the three conditions are mutually exclusive and exhaustive,
so the classes split the record set with no gaps. -/
theorem abc_partition (produits : List ABCInput) :
    (get_analyse_abc produits).length = produits.length ∧
    ∀ r ∈ get_analyse_abc produits,
      (r.classe = .A ↔ r.pct_cumul ≤ 80) ∧
      (r.classe = .B ↔ 80 < r.pct_cumul ∧ r.pct_cumul ≤ 95) ∧
      (r.classe = .C ↔ 95 < r.pct_cumul) := by
  constructor
  · unfold get_analyse_abc
    rw [abcCumul_length, List.length_insertionSort]
  · intro r hr
    unfold get_analyse_abc at hr
    have hc := abcCumul_classe hr
    rw [hc]
    exact classify_abc_spec r.pct_cumul

/-- Witness for C4: the three-product example keeps its three records,
and its first record is in class A with cumulative percentage 50. -/
theorem abc_partition_witness :
    (get_analyse_abc exProduitsABC).length = exProduitsABC.length ∧
    ((⟨"a", 50, 50, .A⟩ : ABCRec).classe = .A ↔ (⟨"a", 50, 50, .A⟩ : ABCRec).pct_cumul ≤ 80) :=
  ⟨(abc_partition exProduitsABC).1,
   ((abc_partition exProduitsABC).2 ⟨"a", 50, 50, .A⟩ (by decide)).1⟩

/-! ## Claim C7: month-zero cohort retention -/

/-- A list minimum bounds every member. -/
lemma int_min?_le {l : List ℤ} {m : ℤ} (h : l.min? = some m) : ∀ x ∈ l, m ≤ x := by
  intro x hx
  exact (List.le_min?_iff (fun a b c => le_min_iff) h).1 le_rfl x hx

/-- A list minimum is a member of the list. -/
lemma int_min?_mem {l : List ℤ} {m : ℤ} (h : l.min? = some m) : m ∈ l :=
  List.min?_mem (fun a b => min_choice a b) h

/-- The cohort month of a customer with a transaction exists and is at
most that transaction's month. -/
lemma cohortMonth_le {txs : List Achat} {t : Achat} (ht : t ∈ txs) :
    ∃ m, cohortMonth txs t.customer = some m ∧ m ≤ t.month := by
  have hmem : t.month ∈ monthsOfClient txs t.customer := by
    unfold monthsOfClient
    exact List.mem_map_of_mem _ (List.mem_filter.2 ⟨ht, by simp⟩)
  unfold cohortMonth
  rcases hmin : (monthsOfClient txs t.customer).min? with _ | m
  · rw [List.min?_eq_none_iff] at hmin
    rw [hmin] at hmem
    simp at hmem
  · exact ⟨m, rfl, int_min?_le hmin _ hmem⟩

/-- Every transaction of the table has a non-negative
months-since-first value. -/
lemma periodOf_nonneg {txs : List Achat} {t : Achat} (ht : t ∈ txs) :
    0 ≤ periodOf txs t := by
  obtain ⟨m, hm, hle⟩ := cohortMonth_le ht
  unfold periodOf
  rw [hm]
  simp only [Option.getD_some]
  omega

/-- The cohort month of a customer is attained by one of its
transactions. -/
lemma cohortMonth_attained {txs : List Achat} {c : ℕ} {m : ℤ}
    (h : cohortMonth txs c = some m) :
    ∃ t ∈ txs, t.customer = c ∧ t.month = m := by
  unfold cohortMonth at h
  have hmem := int_min?_mem h
  unfold monthsOfClient at hmem
  obtain ⟨t, htf, hm⟩ := List.mem_map.1 hmem
  have hf := List.mem_filter.1 htf
  exact ⟨t, hf.1, by simpa using hf.2, hm⟩

/-- On a non-empty table the smallest months-since-first value is 0, so
the first pivot column selected by iloc is the month-zero column. -/
lemma minPeriod_zero {txs : List Achat} (h : txs ≠ []) : minPeriod txs = 0 := by
  obtain ⟨t, ht⟩ := List.exists_mem_of_ne_nil txs h
  obtain ⟨m, hm, _⟩ := cohortMonth_le ht
  obtain ⟨t', ht', hc', hm'⟩ := cohortMonth_attained hm
  have hper : periodOf txs t' = 0 := by
    unfold periodOf
    rw [hc', hm]
    simp only [Option.getD_some]
    omega
  have h0 : (0 : ℤ) ∈ txs.map (periodOf txs) := by
    rw [← hper]
    exact List.mem_map_of_mem _ ht'
  have hub : ∀ p ∈ txs.map (periodOf txs), 0 ≤ p := by
    intro p hp
    obtain ⟨u, hu, rfl⟩ := List.mem_map.1 hp
    exact periodOf_nonneg hu
  unfold minPeriod
  rcases hmin : (txs.map (periodOf txs)).min? with _ | m0
  · rw [List.min?_eq_none_iff] at hmin
    rw [hmin] at h0
    simp at h0
  · have h1 : m0 ≤ 0 := int_min?_le hmin 0 h0
    have h2 : 0 ≤ m0 := hub m0 (int_min?_mem hmin)
    simp only [Option.getD_some]
    omega

/-- Claim C7 (confirmed).  In the retention matrix every cohort's
month-zero cell equals 100 percent: the denominator column selected by
the source is the month-zero column, and each cohort has at least one
customer active in its month zero (the customers whose first purchase
defines the cohort), so the cell divides the month-zero count by
itself. -/
theorem cohort_month_zero_retention (txs : List Achat) (c : ℤ) (hc : c ∈ cohorts txs) :
    retention txs c 0 = 100 := by
  have hne : txs ≠ [] := by
    intro h
    subst h
    simp [cohorts] at hc
  unfold cohorts at hc
  rw [List.mem_dedup] at hc
  obtain ⟨t, ht, hsome⟩ := List.mem_filterMap.1 hc
  obtain ⟨t', ht', hcust, hmonth⟩ := cohortMonth_attained hsome
  have hmem : t' ∈ txs.filter (fun u =>
      decide (cohortMonth txs u.customer = some c ∧ u.month - c = 0)) := by
    refine List.mem_filter.2 ⟨ht', ?_⟩
    simp only [decide_eq_true_eq]
    rw [hcust, hmonth]
    exact ⟨hsome, sub_self c⟩
  have hn0 : nbClients txs c 0 ≠ 0 := by
    unfold nbClients
    have hmem2 : t'.customer ∈ ((txs.filter (fun u =>
        decide (cohortMonth txs u.customer = some c ∧ u.month - c = 0))).map
      (·.customer)).dedup := by
      rw [List.mem_dedup]
      exact List.mem_map_of_mem _ hmem
    intro hlen
    rw [List.length_eq_zero] at hlen
    rw [hlen] at hmem2
    simp at hmem2
  unfold retention
  rw [minPeriod_zero hne, div_self (Nat.cast_ne_zero.2 hn0), one_mul]

/-- Witness for C7: in the example table cohort 0 has month-zero
retention 100. -/
theorem cohort_month_zero_retention_witness :
    0 ∈ cohorts exAchats ∧ retention exAchats 0 0 = 100 :=
  ⟨by decide, cohort_month_zero_retention exAchats 0 (by decide)⟩

/-! ## Claim C10: deficit-order statistics -/

/-- A non-empty list of negative rationals has a negative sum. -/
lemma sum_neg_of_all_neg : ∀ {l : List ℚ}, l ≠ [] → (∀ x ∈ l, x < 0) → l.sum < 0 := by
  intro l
  induction l with
  | nil => intro h; exact absurd rfl h
  | cons x xs ih =>
    intro _ h
    rcases eq_or_ne xs [] with hx | hx
    · subst hx
      simpa using h x (by simp)
    · have h1 := ih hx (fun z hz => h z (List.mem_cons_of_mem _ hz))
      have h2 := h x (List.mem_cons_self x xs)
      simp only [List.sum_cons]
      linarith

/-- Claim C10 counterexample.  The claim states that the reported mean
loss is computed only over the at-most-limite returned orders, i.e.
equals the returned total loss divided by the returned count.  On
eleven deficit orders with limite 10 the source divides the limited
total (65) by the full deficit count (11), yielding 65/11 and not the
65/10 mean over the returned orders. -/
theorem deficit_mean_counterexample :
    (get_commandes_deficitaires exCommandesDef 10).perte_moyenne ≠
      (get_commandes_deficitaires exCommandesDef 10).perte_totale /
        ((get_commandes_deficitaires exCommandesDef 10).data.length : ℚ) ∧
    (get_commandes_deficitaires exCommandesDef 10).perte_moyenne = 65 / 11 := by
  constructor <;> decide

/-- Claim C10 (corrected).  The reported deficit count covers every
order with negative profit, while the reported total loss sums only the
at-most-limite most-negative returned orders; the reported mean loss
divides that limited total by the full deficit count, so whenever the
number of deficit orders exceeds the limit the reported mean loss is
strictly smaller than the mean loss over all deficit orders. -/
theorem deficit_mean_amended (commandes : List Commande) (limite : ℕ)
    (hl : 0 < limite)
    (hexcess : limite < (commandes.filter (fun c => decide (c.profit < 0))).length) :
    (get_commandes_deficitaires commandes limite).nb_commandes_deficitaires =
      (commandes.filter (fun c => decide (c.profit < 0))).length ∧
    (get_commandes_deficitaires commandes limite).perte_moyenne <
      perte_moyenne_globale commandes := by
  set D := commandes.filter (fun c => decide (c.profit < 0)) with hD
  set S := D.insertionSort (fun a b : Commande => a.profit ≤ b.profit) with hS
  have hmemD : ∀ x ∈ D, x.profit < 0 := by
    intro x hx
    have h := (List.mem_filter.1 hx).2
    simpa using h
  have hmemS : ∀ x ∈ S, x.profit < 0 := by
    intro x hx
    rw [hS, List.mem_insertionSort] at hx
    exact hmemD x hx
  have hlenS : S.length = D.length := List.length_insertionSort _ _
  have htake_ne : S.take limite ≠ [] := by
    have hlt : (S.take limite).length = limite := by
      rw [List.length_take]
      omega
    intro h
    rw [h] at hlt
    simp at hlt
    omega
  have hdrop_ne : S.drop limite ≠ [] := by
    have hld : (S.drop limite).length = S.length - limite := List.length_drop _ _
    intro h
    rw [h] at hld
    simp at hld
    omega
  have hsum_take : ((S.take limite).map (·.profit)).sum < 0 := by
    apply sum_neg_of_all_neg
    · simpa [List.map_eq_nil_iff] using htake_ne
    · intro x hx
      obtain ⟨y, hy, rfl⟩ := List.mem_map.1 hx
      exact hmemS y (List.mem_of_mem_take hy)
  have hsum_drop : ((S.drop limite).map (·.profit)).sum < 0 := by
    apply sum_neg_of_all_neg
    · simpa [List.map_eq_nil_iff] using hdrop_ne
    · intro x hx
      obtain ⟨y, hy, rfl⟩ := List.mem_map.1 hx
      exact hmemS y (List.mem_of_mem_drop hy)
  have hsumD : (D.map (·.profit)).sum =
      ((S.take limite).map (·.profit)).sum + ((S.drop limite).map (·.profit)).sum := by
    have hperm : S.Perm D := List.perm_insertionSort _ _
    calc (D.map (·.profit)).sum
        = (S.map (·.profit)).sum := ((hperm.map _).sum_eq).symm
      _ = ((S.take limite ++ S.drop limite).map (·.profit)).sum := by
          rw [List.take_append_drop]
      _ = ((S.take limite).map (·.profit)).sum + ((S.drop limite).map (·.profit)).sum := by
          rw [List.map_append, List.sum_append]
  have hDpos : 0 < D.length := Nat.lt_of_le_of_lt (Nat.zero_le _) hexcess
  have hcast : (0 : ℚ) < D.length := by exact_mod_cast hDpos
  have hout : (get_commandes_deficitaires commandes limite).perte_moyenne =
      |((S.take limite).map (·.profit)).sum| / D.length := by
    simp only [get_commandes_deficitaires]
    rw [if_pos hDpos]
  have hglob : perte_moyenne_globale commandes = |(D.map (·.profit)).sum| / D.length := by
    simp only [perte_moyenne_globale]
    rw [if_pos hDpos]
  refine ⟨rfl, ?_⟩
  rw [hout, hglob]
  have hDneg : (D.map (·.profit)).sum < 0 := by
    rw [hsumD]
    linarith
  have habs : |((S.take limite).map (·.profit)).sum| < |(D.map (·.profit)).sum| := by
    rw [abs_of_neg hsum_take, abs_of_neg hDneg, hsumD]
    linarith
  gcongr

/-- Witness for C10: eleven deficit orders against limite 10. -/
theorem deficit_mean_amended_witness :
    (get_commandes_deficitaires exCommandesDef 10).nb_commandes_deficitaires =
      (exCommandesDef.filter (fun c => decide (c.profit < 0))).length ∧
    (get_commandes_deficitaires exCommandesDef 10).perte_moyenne <
      perte_moyenne_globale exCommandesDef :=
  deficit_mean_amended exCommandesDef 10 (by decide) (by decide)

/-! ## Claim C6: RFM quantile scoring -/

/-- Counting with a weaker predicate counts at least as much. -/
lemma countP_mono_of_imp {α : Type} {p q : α → Bool} :
    ∀ l : List α, (∀ a ∈ l, p a = true → q a = true) → l.countP p ≤ l.countP q := by
  intro l
  induction l with
  | nil => intro _; simp
  | cons x xs ih =>
    intro h
    rw [List.countP_cons, List.countP_cons]
    have hxs := ih (fun a ha => h a (List.mem_cons_of_mem _ ha))
    have hx : (if p x = true then 1 else 0) ≤ (if q x = true then 1 else 0) := by
      cases hpx : p x
      · simp
      · simp [h x (List.mem_cons_self _ _) hpx]
    omega

/-- A bin index is always one of the five bins 0..4. -/
lemma assignBin_le_four (edges : List ℚ) (v : ℚ) : assignBin edges v ≤ 4 :=
  calc ((edges.drop 1).take 4).countP (fun e => decide (e < v))
      ≤ ((edges.drop 1).take 4).length := List.countP_le_length _
    _ ≤ 4 := by rw [List.length_take]; exact min_le_left _ _

/-- Bin assignment is monotone in the value. -/
lemma assignBin_mono (edges : List ℚ) {v w : ℚ} (h : v ≤ w) :
    assignBin edges v ≤ assignBin edges w := by
  apply countP_mono_of_imp
  intro e _ he
  rw [decide_eq_true_eq] at he ⊢
  exact lt_of_lt_of_le he h

/-- The reversed recency labels all lie in [1, 5]. -/
lemma labels_desc_bounds : ∀ i, i ≤ 4 →
    1 ≤ ([5, 4, 3, 2, 1] : List ℤ).getD i 0 ∧ ([5, 4, 3, 2, 1] : List ℤ).getD i 0 ≤ 5 := by
  decide

/-- The ascending labels all lie in [1, 5]. -/
lemma labels_asc_bounds : ∀ i, i ≤ 4 →
    1 ≤ ([1, 2, 3, 4, 5] : List ℤ).getD i 0 ∧ ([1, 2, 3, 4, 5] : List ℤ).getD i 0 ≤ 5 := by
  decide

/-- The reversed recency labels decrease with the bin index. -/
lemma labels_desc_anti : ∀ b, b ≤ 4 → ∀ a, a ≤ b →
    ([5, 4, 3, 2, 1] : List ℤ).getD b 0 ≤ ([5, 4, 3, 2, 1] : List ℤ).getD a 0 := by
  decide

/-- The ascending labels increase with the bin index. -/
lemma labels_asc_mono : ∀ b, b ≤ 4 → ∀ a, a ≤ b →
    ([1, 2, 3, 4, 5] : List ℤ).getD a 0 ≤ ([1, 2, 3, 4, 5] : List ℤ).getD b 0 := by
  decide

/-- A successful qcut scores each value by the label of its bin. -/
lemma qcutScores_eq {xs : List ℚ} {labels : List ℤ} {ys : List ℤ}
    (h : qcutScores xs labels = some ys) :
    ys = xs.map (fun v => labels.getD (assignBin (qcutEdges xs) v) 0) := by
  simp only [qcutScores] at h
  split_ifs at h with he
  injection h with h
  exact h.symm

/-- One entry of a successful qcut column. -/
lemma qcutScores_getD {xs : List ℚ} {labels : List ℤ} {ys : List ℤ}
    (h : qcutScores xs labels = some ys) {i : ℕ} (hi : i < xs.length) :
    ys.getD i 0 = labels.getD (assignBin (qcutEdges xs) (xs.getD i 0)) 0 := by
  rw [qcutScores_eq h,
    List.getD_eq_getElem _ _ (by rw [List.length_map]; exact hi),
    List.getElem_map, List.getD_eq_getElem _ _ hi]

/-- Every score of a successful qcut lies within the label bounds. -/
lemma qcutScores_mem_bounds {xs : List ℚ} {labels : List ℤ} {ys : List ℤ}
    (hlab : ∀ i, i ≤ 4 → 1 ≤ labels.getD i 0 ∧ labels.getD i 0 ≤ 5)
    (h : qcutScores xs labels = some ys) : ∀ s ∈ ys, 1 ≤ s ∧ s ≤ 5 := by
  rw [qcutScores_eq h]
  intro s hs
  obtain ⟨v, _, rfl⟩ := List.mem_map.1 hs
  exact hlab _ (assignBin_le_four _ _)

/-- The length of the rank column. -/
lemma rankFirst_length (xs : List ℚ) : (rankFirst xs).length = xs.length := by
  simp [rankFirst]

/-- One entry of the rank column. -/
lemma rankFirst_getD {xs : List ℚ} {j : ℕ} (hj : j < xs.length) :
    (rankFirst xs).getD j 0 =
      1 + (((List.range xs.length).filter (fun i =>
        decide (xs.getD i 0 < xs.getD j 0 ∨ (xs.getD i 0 = xs.getD j 0 ∧ i < j)))).length : ℚ) := by
  unfold rankFirst
  rw [List.getD_eq_getElem _ _ (by simpa using hj), List.getElem_map, List.getElem_range]

/-- Equal values receive first-occurrence ranks: the earlier position
gets the smaller rank. -/
lemma rankFirst_le_of_eq {xs : List ℚ} {i j : ℕ} (hij : i < j) (hj : j < xs.length)
    (hx : xs.getD i 0 = xs.getD j 0) :
    (rankFirst xs).getD i 0 ≤ (rankFirst xs).getD j 0 := by
  have hi : i < xs.length := hij.trans hj
  rw [rankFirst_getD hi, rankFirst_getD hj]
  have hcnt : ((List.range xs.length).filter (fun k =>
      decide (xs.getD k 0 < xs.getD i 0 ∨ (xs.getD k 0 = xs.getD i 0 ∧ k < i)))).length ≤
      ((List.range xs.length).filter (fun k =>
      decide (xs.getD k 0 < xs.getD j 0 ∨ (xs.getD k 0 = xs.getD j 0 ∧ k < j)))).length := by
    rw [← List.countP_eq_length_filter, ← List.countP_eq_length_filter]
    apply countP_mono_of_imp
    intro k _ hk
    rw [decide_eq_true_eq] at hk ⊢
    rcases hk with hlt | ⟨heq, hki⟩
    · exact Or.inl (hx ▸ hlt)
    · exact Or.inr ⟨hx ▸ heq, hki.trans hij⟩
  have hcast := (Nat.cast_le (α := ℚ)).2 hcnt
  linarith

/-- Splitting a successful segmentation into its three columns. -/
lemma rfm_extract {cs : List Client} {out : RFMScores}
    (h : get_segmentation_rfm cs = some out) :
    qcutScores (cs.map (·.recency)) [5, 4, 3, 2, 1] = some out.r ∧
    qcutScores (rankFirst (cs.map (·.frequency))) [1, 2, 3, 4, 5] = some out.f ∧
    qcutScores (rankFirst (cs.map (·.monetary))) [1, 2, 3, 4, 5] = some out.m := by
  unfold get_segmentation_rfm at h
  rcases hr : qcutScores (cs.map (·.recency)) [5, 4, 3, 2, 1] with _ | r
  · rw [hr] at h
    exact Option.noConfusion h
  rcases hf : qcutScores (rankFirst (cs.map (·.frequency))) [1, 2, 3, 4, 5] with _ | f
  · rw [hr, hf] at h
    exact Option.noConfusion h
  rcases hm : qcutScores (rankFirst (cs.map (·.monetary))) [1, 2, 3, 4, 5] with _ | m
  · rw [hr, hf, hm] at h
    exact Option.noConfusion h
  rw [hr, hf, hm] at h
  have h2 : ({ r := r, f := f, m := m } : RFMScores) = out := Option.some.inj h
  subst h2
  exact ⟨hr, hf, hm⟩

/-- Claim C6 counterexample.  The claim quantifies over every non-empty
customer set, but on a single customer the recency quantile edges
coincide, pandas qcut with duplicates=drop then has fewer bins than the
five supplied labels and raises a ValueError, so no scores are produced
at all. -/
theorem rfm_single_customer_counterexample :
    ([exClientSeul] : List Client) ≠ [] ∧ get_segmentation_rfm [exClientSeul] = none := by
  constructor <;> decide

/-- Claim C6 (corrected).  For every customer set on which the three
five-quantile binnings succeed (non-collapsing bin edges; otherwise the
computation raises instead of scoring), every recency, frequency and
monetary score is an integer in [1, 5]; recency scoring is reversed
(a more recent customer never scores lower), and equal frequency or
monetary values are scored through their first-occurrence ranks, the
earlier position never scoring higher. -/
theorem rfm_scores_amended (cs : List Client) (out : RFMScores)
    (h : get_segmentation_rfm cs = some out) :
    ((∀ s ∈ out.r, 1 ≤ s ∧ s ≤ 5) ∧ (∀ s ∈ out.f, 1 ≤ s ∧ s ≤ 5) ∧
      (∀ s ∈ out.m, 1 ≤ s ∧ s ≤ 5)) ∧
    (∀ i j, i < cs.length → j < cs.length →
      (cs.getD i ⟨0, 0, 0⟩).recency ≤ (cs.getD j ⟨0, 0, 0⟩).recency →
      out.r.getD j 0 ≤ out.r.getD i 0) ∧
    (∀ i j, i < j → j < cs.length →
      (cs.getD i ⟨0, 0, 0⟩).frequency = (cs.getD j ⟨0, 0, 0⟩).frequency →
      out.f.getD i 0 ≤ out.f.getD j 0) ∧
    (∀ i j, i < j → j < cs.length →
      (cs.getD i ⟨0, 0, 0⟩).monetary = (cs.getD j ⟨0, 0, 0⟩).monetary →
      out.m.getD i 0 ≤ out.m.getD j 0) := by
  obtain ⟨hr, hf, hm⟩ := rfm_extract h
  have hfield : ∀ (f : Client → ℚ) (i : ℕ), i < cs.length →
      (cs.map f).getD i 0 = f (cs.getD i ⟨0, 0, 0⟩) := by
    intro f i hi
    rw [List.getD_eq_getElem _ _ (by simpa using hi), List.getElem_map,
      List.getD_eq_getElem _ _ hi]
  refine ⟨⟨qcutScores_mem_bounds labels_desc_bounds hr,
    qcutScores_mem_bounds labels_asc_bounds hf,
    qcutScores_mem_bounds labels_asc_bounds hm⟩, ?_, ?_, ?_⟩
  · intro i j hi hj hle
    rw [qcutScores_getD hr (by simpa using hj), qcutScores_getD hr (by simpa using hi)]
    refine labels_desc_anti _ (assignBin_le_four _ _) _ (assignBin_mono _ ?_)
    rw [hfield _ i hi, hfield _ j hj]
    exact hle
  · intro i j hij hj heq
    have hi : i < cs.length := hij.trans hj
    have hlen : ∀ n, n < cs.length → n < (rankFirst (cs.map (·.frequency))).length := by
      intro n hn
      rw [rankFirst_length, List.length_map]
      exact hn
    rw [qcutScores_getD hf (hlen i hi), qcutScores_getD hf (hlen j hj)]
    refine labels_asc_mono _ (assignBin_le_four _ _) _ (assignBin_mono _ ?_)
    refine rankFirst_le_of_eq hij (by simpa using hj) ?_
    rw [hfield _ i hi, hfield _ j hj]
    exact heq
  · intro i j hij hj heq
    have hi : i < cs.length := hij.trans hj
    have hlen : ∀ n, n < cs.length → n < (rankFirst (cs.map (·.monetary))).length := by
      intro n hn
      rw [rankFirst_length, List.length_map]
      exact hn
    rw [qcutScores_getD hm (hlen i hi), qcutScores_getD hm (hlen j hj)]
    refine labels_asc_mono _ (assignBin_le_four _ _) _ (assignBin_mono _ ?_)
    refine rankFirst_le_of_eq hij (by simpa using hj) ?_
    rw [hfield _ i hi, hfield _ j hj]
    exact heq

/-- Witness for C6: five customers with a frequency tie and a monetary
tie; the binning succeeds and the instantiated clauses hold. -/
theorem rfm_scores_amended_witness :
    get_segmentation_rfm exClientsRFM = some exScoresRFM ∧
    (1 ≤ exScoresRFM.r.getD 0 0 ∧ exScoresRFM.r.getD 0 0 ≤ 5) ∧
    exScoresRFM.r.getD 1 0 ≤ exScoresRFM.r.getD 0 0 ∧
    exScoresRFM.f.getD 1 0 ≤ exScoresRFM.f.getD 2 0 ∧
    exScoresRFM.m.getD 1 0 ≤ exScoresRFM.m.getD 2 0 := by
  have h : get_segmentation_rfm exClientsRFM = some exScoresRFM := by decide
  have hmain := rfm_scores_amended exClientsRFM exScoresRFM h
  exact ⟨h,
    hmain.1.1 _ (by decide),
    hmain.2.1 0 1 (by decide) (by decide) (by decide),
    hmain.2.2.1 1 2 (by decide) (by decide) (by decide),
    hmain.2.2.2 1 2 (by decide) (by decide) (by decide)⟩

end Superstore
